import Mathlib

/-!
Shallow embedding of the proposer engine of `silly-paxos-rust`
(`src/paxos/src/actors/proposer.rs`).

Modelling decisions, all taken from the source:
* `ProposalId` is a UUIDv7 — globally unique and totally ordered by generation
  time; we model it as `Nat` and id generation (`Uuid::now_v7()`) as an input
  parameter of `send_prepare_request`.
* `u64` values carry no arithmetic in the proposer (they are only stored,
  looked up and echoed), so they are modelled as `Nat`.
* `HashMap<ProposalId, u64>` becomes an association list with the exact
  `entry(..).or_insert(..)` (insert-if-absent) behaviour of the source.
* `HashSet<u64>` becomes `Finset Nat` (idempotent insert, `card` for
  `.iter().count()`).
* `self.acceptor_sender.receiver_count()` is read live from the broadcast
  channel; we pass it as an explicit parameter `rc` to each handler.
* Rust `Result::Err` (the `anyhow` errors built with `ok_or`) and Rust panics
  (`Option::unwrap` on `None`, `.expect(..)` on a failed broadcast send — the
  tokio broadcast send fails exactly when there are no receivers) are distinct
  outcomes: `RunResult.err` versus `RunResult.panicked`.
* Broadcast sends are recorded as a list of emitted `Message`s; the
  `info!("quorum reached ...")` consensus signal of `handle_accept_response`
  is recorded as an `Option Nat` carrying the logged value.
-/

/-- `ProposalId(Uuid)`: time-ordered unique ballot identifier. -/
abbrev ProposalId := Nat

/-- `Proposal { id, value }` from `domain/proposal.rs`. -/
structure Proposal where
  id : ProposalId
  value : Nat
deriving DecidableEq, Repr

/-- `PreparePhaseBody { issuer_id, proposal_id }` from `domain/message.rs`. -/
structure PreparePhaseBody where
  issuer_id : Nat
  proposal_id : ProposalId
deriving DecidableEq, Repr

/-- `AcceptPhaseBody { issuer_id, proposal_id, value }` from `domain/message.rs`. -/
structure AcceptPhaseBody where
  issuer_id : Nat
  proposal_id : ProposalId
  value : Nat
deriving DecidableEq, Repr

/-- The `Message` tagged union from `domain/message.rs`. -/
inductive Message where
  | PrepareRequest (body : PreparePhaseBody)
  | PrepareResponse (body : PreparePhaseBody)
  | AcceptRequest (body : AcceptPhaseBody)
  | AcceptResponse (body : AcceptPhaseBody)
deriving DecidableEq, Repr

/-- The `anyhow` errors the proposer constructs with `ok_or`:
`"could not find proposal {id} in history"`. -/
inductive ProposerError where
  | missingHistoryEntry (id : ProposalId)
deriving DecidableEq, Repr

/-- Outcome of running a fallible proposer method: a normal return, a Rust
`Result::Err`, or a Rust panic (`unwrap` on `None` / `expect` on a failed
broadcast send). -/
inductive RunResult (α : Type) where
  | ok (a : α)
  | err (e : ProposerError)
  | panicked
deriving DecidableEq, Repr

/-- The proposer state: the fields of `struct Proposer` that the engine
mutates (the channel handles are the ambient environment, not state). -/
structure Proposer where
  id : Nat
  latest_proposal : Option Proposal
  proposal_history : List (ProposalId × Nat)
  prepared_nodes : Finset Nat
  accepted_value_nodes : Finset Nat
deriving DecidableEq

/-- `self.proposal_history.entry(k).or_insert(v)`: insert only if absent. -/
def entryOrInsert (k : ProposalId) (v : Nat) (h : List (ProposalId × Nat)) :
    List (ProposalId × Nat) :=
  match List.lookup k h with
  | some _ => h
  | none => (k, v) :: h

/-- `Proposer::new(..)`: id 1, everything else empty. -/
def Proposer.new : Proposer :=
  { id := 1
    latest_proposal := none
    proposal_history := []
    prepared_nodes := ∅
    accepted_value_nodes := ∅ }

/-- `Proposer::send_prepare_request(value)`. `rc` is the live
`receiver_count` of the broadcast channel and `proposal_id` the freshly
generated `Uuid::now_v7()`. The broadcast `send(..).expect(..)` panics
exactly when there are no receivers. -/
def send_prepare_request (rc : Nat) (proposal_id : ProposalId) (value : Nat)
    (p : Proposer) : RunResult (Proposer × List Message) :=
  let p1 : Proposer :=
    { p with
      proposal_history := entryOrInsert proposal_id value p.proposal_history
      latest_proposal := some ⟨proposal_id, value⟩ }
  if rc = 0 then .panicked
  else .ok (p1, [Message.PrepareRequest ⟨p.id, proposal_id⟩])

/-- `Proposer::send_accept_request()`: `self.latest_proposal.unwrap()` panics
on `None`; the history lookup failure is an `anyhow` error propagated with
`?`; the broadcast `send(..).expect(..)` panics when there are no
receivers. -/
def send_accept_request (rc : Nat) (p : Proposer) :
    RunResult (Proposer × List Message) :=
  match p.latest_proposal with
  | none => .panicked
  | some latest_proposal =>
    match List.lookup latest_proposal.id p.proposal_history with
    | none => .err (.missingHistoryEntry latest_proposal.id)
    | some proposal_value =>
      if rc = 0 then .panicked
      else .ok (p, [Message.AcceptRequest ⟨p.id, latest_proposal.id, proposal_value⟩])

/-- `Proposer::handle_prepare_response(received_proposal)`: if a latest
proposal exists and the received id is strictly greater, adopt it with the
value looked up from history (error if absent); then record the issuer in
`prepared_nodes`; then, if `prepared_nodes.iter().count() >
receiver_count() / 2`, call `send_accept_request`. -/
def handle_prepare_response (rc : Nat) (received_proposal : PreparePhaseBody)
    (p : Proposer) : RunResult (Proposer × List Message) :=
  let received_proposal_id := received_proposal.proposal_id
  let node_id := received_proposal.issuer_id
  let adopt : RunResult Proposer :=
    match p.latest_proposal with
    | some latest_proposal =>
      if received_proposal_id > latest_proposal.id then
        match List.lookup received_proposal_id p.proposal_history with
        | some proposal_value =>
          .ok { p with latest_proposal := some ⟨received_proposal_id, proposal_value⟩ }
        | none => .err (.missingHistoryEntry received_proposal_id)
      else .ok p
    | none => .ok p
  match adopt with
  | .err e => .err e
  | .panicked => .panicked
  | .ok p1 =>
    let p2 : Proposer :=
      { p1 with prepared_nodes := insert node_id p1.prepared_nodes }
    if p2.prepared_nodes.card > rc / 2 then
      send_accept_request rc p2
    else .ok (p2, [])

/-- `Proposer::handle_accept_response(received_message)`: record the issuer
in `accepted_value_nodes`; if `accepted_value_nodes.iter().count() >
receiver_count() / 2`, the consensus `info!` log fires with the received
value (we return it as `some value`). This method is infallible in the
source (returns `()`). -/
def handle_accept_response (rc : Nat) (received_message : AcceptPhaseBody)
    (p : Proposer) : Proposer × Option Nat :=
  let p1 : Proposer :=
    { p with
      accepted_value_nodes :=
        insert received_message.issuer_id p.accepted_value_nodes }
  if p1.accepted_value_nodes.card > rc / 2 then
    (p1, some received_message.value)
  else (p1, none)

/-- Deliver a sequence of `PrepareResponse`s to the proposer in order
(the event loop of `Proposer::run` dispatches each to
`handle_prepare_response` and aborts on error, with `?`), collecting all
broadcast messages. -/
def runPrepareResponses (rc : Nat) (rs : List PreparePhaseBody)
    (p : Proposer) : RunResult (Proposer × List Message) :=
  match rs with
  | [] => .ok (p, [])
  | r :: rest =>
    match handle_prepare_response rc r p with
    | .ok (p1, msgs) =>
      match runPrepareResponses rc rest p1 with
      | .ok (p2, msgs2) => .ok (p2, msgs ++ msgs2)
      | .err e => .err e
      | .panicked => .panicked
    | .err e => .err e
    | .panicked => .panicked

/-- Deliver a sequence of `AcceptResponse`s in order, collecting each call's
consensus signal. -/
def runAcceptResponses (rc : Nat) (rs : List AcceptPhaseBody)
    (p : Proposer) : Proposer × List (Option Nat) :=
  match rs with
  | [] => (p, [])
  | r :: rest =>
    let (p1, s) := handle_accept_response rc r p
    let (p2, ss) := runAcceptResponses rc rest p1
    (p2, s :: ss)

/-- Number of `AcceptRequest` broadcasts in an emitted message list. -/
def countAcceptRequests (msgs : List Message) : Nat :=
  msgs.countP (fun m => match m with
    | .AcceptRequest _ => true
    | _ => false)

/-- Greatest proposal id among an initial id and the ids carried by a list
of prepare responses. -/
def maxObserved (i : ProposalId) (rs : List PreparePhaseBody) : ProposalId :=
  rs.foldl (fun m r => max m r.proposal_id) i

/-! ## Helper lemmas (shared across claims) -/

/-- `Bool`-level test used to state error-freedom without a quantifier. -/
def RunResult.isErr {α : Type} : RunResult α → Bool
  | .err _ => true
  | _ => false

/-- A binding already present in the history survives `entryOrInsert`. -/
theorem lookup_entryOrInsert_of_mem (k v i v0 : Nat) (h : List (ProposalId × Nat))
    (hi : List.lookup i h = some v0) :
    List.lookup i (entryOrInsert k v h) = some v0 := by
  unfold entryOrInsert
  cases hk : List.lookup k h with
  | some w => exact hi
  | none =>
    by_cases hik : i = k
    · rw [hik] at hi; rw [hi] at hk; cases hk
    · have hbeq : (i == k) = false := beq_eq_false_iff_ne.mpr hik
      simpa [List.lookup, hbeq] using hi

/-- `send_accept_request` with no latest proposal hits `unwrap()` on `None`. -/
theorem send_accept_request_none (rc : Nat) (p : Proposer)
    (hl : p.latest_proposal = none) :
    send_accept_request rc p = .panicked := by
  simp [send_accept_request, hl]

/-! ## Claim C6 -/

/-- Claim C6: invoking `send_accept_request` while `latest_proposal` is
`None` does not return a distinguishable error — the source panics
(`self.latest_proposal.unwrap()` on `None`), diverging from the spec's
stated intent of propagating a typed error. -/
theorem c6_send_accept_request_no_latest_panics (rc : Nat) (p : Proposer)
    (hl : p.latest_proposal = none) :
    send_accept_request rc p = .panicked :=
  send_accept_request_none rc p hl

/-- Claim C6, witness: the freshly constructed proposer has no latest
proposal, and `send_accept_request` on it panics. -/
theorem c6_send_accept_request_no_latest_panics_witness :
    send_accept_request 3 Proposer.new = .panicked :=
  c6_send_accept_request_no_latest_panics 3 Proposer.new rfl

/-! ## Claim C3 -/

/-- Claim C3, counterexample: a `PrepareResponse` carrying id 3, absent from
the history `[(5, 9)]`, is processed without any error when the current
latest proposal's id is 5 (the received id is not strictly greater): the
handler returns `ok`, merely recording the issuer. -/
theorem c3_counterexample :
    List.lookup 3 ([(5, 9)] : List (ProposalId × Nat)) = none ∧
    handle_prepare_response 3 ⟨2, 3⟩ ⟨1, some ⟨5, 9⟩, [(5, 9)], ∅, ∅⟩ =
      .ok (⟨1, some ⟨5, 9⟩, [(5, 9)], {2}, ∅⟩, []) :=
  ⟨by decide, by decide⟩

/-- Claim C3 (amended): for every `PrepareResponse` whose `ProposalId` is
strictly greater than the current latest proposal's id and not present in
`proposal_history`, `handle_prepare_response` fails with a
`MissingHistoryEntry` error. -/
theorem c3_missing_history_errors (rc : Nat) (m : PreparePhaseBody)
    (p : Proposer) (pr : Proposal)
    (hl : p.latest_proposal = some pr)
    (hgt : pr.id < m.proposal_id)
    (habs : List.lookup m.proposal_id p.proposal_history = none) :
    handle_prepare_response rc m p =
      .err (.missingHistoryEntry m.proposal_id) := by
  simp [handle_prepare_response, hl, hgt, habs]

/-- Claim C3, witness: latest id 1, received id 3 absent from history. -/
theorem c3_missing_history_errors_witness :
    handle_prepare_response 3 ⟨2, 3⟩ ⟨1, some ⟨1, 9⟩, [(1, 9)], ∅, ∅⟩ =
      .err (.missingHistoryEntry 3) :=
  c3_missing_history_errors 3 ⟨2, 3⟩ ⟨1, some ⟨1, 9⟩, [(1, 9)], ∅, ∅⟩
    ⟨1, 9⟩ rfl (by decide) (by decide)

/-! ## Claim C9 -/

/-- Claim C9: `send_prepare_request` does not clear the quorum tracking
sets: it only records the fresh (id, value) pair in the history
(insert-if-absent), replaces `latest_proposal`, and broadcasts the
`PrepareRequest`; `prepared_nodes` and `accepted_value_nodes` are left
exactly as they were. -/
theorem c9_send_prepare_request_frame (rc i v : Nat) (p : Proposer)
    (hrc : 0 < rc) :
    ∃ p', send_prepare_request rc i v p =
        .ok (p', [Message.PrepareRequest ⟨p.id, i⟩]) ∧
      p'.prepared_nodes = p.prepared_nodes ∧
      p'.accepted_value_nodes = p.accepted_value_nodes ∧
      p'.latest_proposal = some ⟨i, v⟩ ∧
      p'.proposal_history = entryOrInsert i v p.proposal_history := by
  refine ⟨{ p with
             proposal_history := entryOrInsert i v p.proposal_history
             latest_proposal := some ⟨i, v⟩ }, ?_, rfl, rfl, rfl, rfl⟩
  simp [send_prepare_request, hrc.ne']

/-- Claim C9, witness: concrete prepare from the initial state, with three
acceptors subscribed. -/
theorem c9_send_prepare_request_frame_witness :
    ∃ p', send_prepare_request 3 5 42 Proposer.new =
        .ok (p', [Message.PrepareRequest ⟨Proposer.new.id, 5⟩]) ∧
      p'.prepared_nodes = Proposer.new.prepared_nodes ∧
      p'.accepted_value_nodes = Proposer.new.accepted_value_nodes ∧
      p'.latest_proposal = some ⟨5, 42⟩ ∧
      p'.proposal_history = entryOrInsert 5 42 Proposer.new.proposal_history :=
  c9_send_prepare_request_frame 3 5 42 Proposer.new (by decide)

/-! ## Claim C10 -/

/-- Claim C10: when `latest_proposal` is `None`, `handle_prepare_response`
never adopts the received id and never returns a `Result` error, whether or
not the received id is in the history; it records the issuer in
`prepared_nodes` and still performs the quorum check — if that check passes
it enters `send_accept_request` (where the source then panics on the
`unwrap` of the absent latest proposal), otherwise it returns `ok` with the
latest proposal still `None`. -/
theorem c10_handle_prepare_response_no_latest (rc : Nat)
    (m : PreparePhaseBody) (p : Proposer)
    (hl : p.latest_proposal = none) :
    (handle_prepare_response rc m p).isErr = false ∧
    ((insert m.issuer_id p.prepared_nodes).card > rc / 2 →
      handle_prepare_response rc m p = .panicked) ∧
    (¬ (insert m.issuer_id p.prepared_nodes).card > rc / 2 →
      handle_prepare_response rc m p =
        .ok ({ p with prepared_nodes := insert m.issuer_id p.prepared_nodes },
             [])) := by
  have hsend := send_accept_request_none rc
    { p with prepared_nodes := insert m.issuer_id p.prepared_nodes } hl
  rw [hl] at hsend
  have key : handle_prepare_response rc m p =
      if (insert m.issuer_id p.prepared_nodes).card > rc / 2
        then RunResult.panicked
        else RunResult.ok
          ({ p with prepared_nodes := insert m.issuer_id p.prepared_nodes },
           []) := by
    simp [handle_prepare_response, hl, hsend]
  refine ⟨?_, fun hq => ?_, fun hq => ?_⟩
  · rw [key]; split <;> rfl
  · rw [key, if_pos hq]
  · rw [key, if_neg hq]

/-- Claim C10, witness: fresh proposer, a prepare response from node 2
carrying an id (3) that is nowhere in the history; no error, and with three
acceptors the quorum check does not pass, so the handler returns `ok`. -/
theorem c10_handle_prepare_response_no_latest_witness :
    (handle_prepare_response 3 ⟨2, 3⟩ Proposer.new).isErr = false ∧
    ((insert 2 Proposer.new.prepared_nodes).card > 3 / 2 →
      handle_prepare_response 3 ⟨2, 3⟩ Proposer.new = .panicked) ∧
    (¬ (insert 2 Proposer.new.prepared_nodes).card > 3 / 2 →
      handle_prepare_response 3 ⟨2, 3⟩ Proposer.new =
        .ok ({ Proposer.new with
                prepared_nodes := insert 2 Proposer.new.prepared_nodes },
             [])) :=
  c10_handle_prepare_response_no_latest 3 ⟨2, 3⟩ Proposer.new rfl

/-- On the `ok` path, `send_accept_request` leaves the state untouched and
broadcasts exactly one `AcceptRequest`. -/
theorem send_accept_request_ok_spec {rc : Nat} {p q : Proposer}
    {msgs : List Message} (h : send_accept_request rc p = .ok (q, msgs)) :
    q = p ∧ ∃ b, msgs = [Message.AcceptRequest b] := by
  unfold send_accept_request at h
  split at h
  · simp at h
  · split at h
    · simp at h
    · split at h
      · simp at h
      · simp only [RunResult.ok.injEq, Prod.mk.injEq] at h
        exact ⟨h.1.symm, ⟨_, h.2.symm⟩⟩

/-- On the `ok` path, `send_prepare_request` produces exactly the state with
the history extended (insert-if-absent) and the latest proposal replaced. -/
theorem send_prepare_request_ok_state {rc fid val : Nat} {p p' : Proposer}
    {msgs : List Message}
    (h : send_prepare_request rc fid val p = .ok (p', msgs)) :
    p' = { p with
           proposal_history := entryOrInsert fid val p.proposal_history
           latest_proposal := some ⟨fid, val⟩ } := by
  unfold send_prepare_request at h
  split at h
  · simp at h
  · simp only [RunResult.ok.injEq, Prod.mk.injEq] at h
    exact h.1.symm

/-- The quorum check and accept broadcast at the tail of
`handle_prepare_response`, on the `ok` path. -/
theorem quorum_tail_spec {rc nid : Nat} {p1 p' : Proposer}
    {msgs : List Message}
    (h : (if (insert nid p1.prepared_nodes).card > rc / 2
            then send_accept_request rc
              { p1 with prepared_nodes := insert nid p1.prepared_nodes }
            else .ok ({ p1 with prepared_nodes := insert nid p1.prepared_nodes },
                      [])) = .ok (p', msgs)) :
    p' = { p1 with prepared_nodes := insert nid p1.prepared_nodes } ∧
    (p'.prepared_nodes.card > rc / 2 → ∃ b, msgs = [Message.AcceptRequest b]) ∧
    (¬ p'.prepared_nodes.card > rc / 2 → msgs = []) := by
  split at h
  next hq =>
    obtain ⟨hstate, b, hb⟩ := send_accept_request_ok_spec h
    exact ⟨hstate, fun _ => ⟨b, hb⟩,
      fun hnq => absurd (by rw [hstate]; exact hq) hnq⟩
  next hq =>
    simp only [RunResult.ok.injEq, Prod.mk.injEq] at h
    refine ⟨h.1.symm, fun hquorum => ?_, fun _ => h.2.symm⟩
    rw [← h.1] at hquorum
    exact absurd hquorum hq

/-- Structure of a successful `handle_prepare_response`: the state either
kept its latest proposal or adopted the received id with the value looked up
from the history; the issuer was inserted into `prepared_nodes`; and an
`AcceptRequest` was broadcast exactly when the quorum check passed. -/
theorem handle_prepare_response_ok_spec {rc : Nat} {m : PreparePhaseBody}
    {p p' : Proposer} {msgs : List Message}
    (h : handle_prepare_response rc m p = .ok (p', msgs)) :
    ∃ p1 : Proposer,
      (p1 = p ∨ ∃ v, List.lookup m.proposal_id p.proposal_history = some v ∧
          p1 = { p with latest_proposal := some ⟨m.proposal_id, v⟩ }) ∧
      p' = { p1 with prepared_nodes := insert m.issuer_id p1.prepared_nodes } ∧
      (p'.prepared_nodes.card > rc / 2 → ∃ b, msgs = [Message.AcceptRequest b]) ∧
      (¬ p'.prepared_nodes.card > rc / 2 → msgs = []) := by
  obtain ⟨pid, plat, phist, pprep, pacc⟩ := p
  cases plat with
  | none =>
    simp only [handle_prepare_response] at h
    exact ⟨⟨pid, none, phist, pprep, pacc⟩, Or.inl rfl,
      @quorum_tail_spec rc m.issuer_id ⟨pid, none, phist, pprep, pacc⟩ p' msgs h⟩
  | some latest =>
    simp only [handle_prepare_response] at h
    by_cases hgt : m.proposal_id > latest.id
    · rw [if_pos hgt] at h
      cases hk : List.lookup m.proposal_id phist with
      | none =>
        simp only [hk] at h
        exact RunResult.noConfusion h
      | some v =>
        simp only [hk] at h
        exact ⟨⟨pid, some ⟨m.proposal_id, v⟩, phist, pprep, pacc⟩,
          Or.inr ⟨v, rfl, rfl⟩,
          @quorum_tail_spec rc m.issuer_id
            ⟨pid, some ⟨m.proposal_id, v⟩, phist, pprep, pacc⟩ p' msgs h⟩
    · rw [if_neg hgt] at h
      exact ⟨⟨pid, some latest, phist, pprep, pacc⟩, Or.inl rfl,
        @quorum_tail_spec rc m.issuer_id
          ⟨pid, some latest, phist, pprep, pacc⟩ p' msgs h⟩

/-- `handle_accept_response` as a plain equation: insert the issuer, then
signal consensus exactly when the inserted set strictly exceeds half the
acceptor count. -/
theorem handle_accept_response_eq (rc : Nat) (a : AcceptPhaseBody)
    (p : Proposer) :
    handle_accept_response rc a p =
      ({ p with accepted_value_nodes :=
            insert a.issuer_id p.accepted_value_nodes },
       if (insert a.issuer_id p.accepted_value_nodes).card > rc / 2
         then some a.value else none) := by
  unfold handle_accept_response
  split
  next hq => rw [if_pos hq]
  next hq => rw [if_neg hq]

/-- Inserting a fresh binding makes it visible in the history. -/
theorem lookup_entryOrInsert_self (k v : Nat) (h : List (ProposalId × Nat))
    (hk : List.lookup k h = none) :
    List.lookup k (entryOrInsert k v h) = some v := by
  simp [entryOrInsert, hk, List.lookup]

/-! ## Claim C7 -/

/-- Claim C7: duplicate responses are idempotent. A second `PrepareResponse`
or `AcceptResponse` from an acceptor already in the corresponding tracking
set leaves that set unchanged, and re-delivering the very same
`AcceptResponse` returns the same state and the same consensus signal as the
first delivery. -/
theorem c7_duplicate_responses_idempotent (rc : Nat) (m : PreparePhaseBody)
    (a : AcceptPhaseBody) (p : Proposer) :
    (m.issuer_id ∈ p.prepared_nodes →
      ∀ p' msgs, handle_prepare_response rc m p = .ok (p', msgs) →
        p'.prepared_nodes = p.prepared_nodes) ∧
    (a.issuer_id ∈ p.accepted_value_nodes →
      (handle_accept_response rc a p).1.accepted_value_nodes =
        p.accepted_value_nodes) ∧
    handle_accept_response rc a (handle_accept_response rc a p).1 =
      handle_accept_response rc a p := by
  refine ⟨?_, ?_, ?_⟩
  · intro hmem p' msgs h
    obtain ⟨p1, hp1, hp', -, -⟩ := handle_prepare_response_ok_spec h
    have hprep : p1.prepared_nodes = p.prepared_nodes := by
      rcases hp1 with rfl | ⟨v, -, rfl⟩ <;> rfl
    rw [hp']
    show insert m.issuer_id p1.prepared_nodes = p.prepared_nodes
    rw [hprep, Finset.insert_eq_self.mpr hmem]
  · intro hmem
    rw [handle_accept_response_eq]
    show insert a.issuer_id p.accepted_value_nodes = p.accepted_value_nodes
    exact Finset.insert_eq_self.mpr hmem
  · rw [handle_accept_response_eq rc a p]
    rw [handle_accept_response_eq]
    simp [Finset.insert_idem]

/-! ## Claim C8 -/

/-- Claim C8: the proposal history is append-only with insert-if-absent
semantics: an id already bound keeps its value across every proposer
operation, and `send_prepare_request` inserts its fresh pair exactly when
the id is absent. -/
theorem c8_history_append_only (rc i v0 fid val : Nat) (m : PreparePhaseBody)
    (a : AcceptPhaseBody) (p : Proposer)
    (hi : List.lookup i p.proposal_history = some v0) :
    (∀ p' msgs, send_prepare_request rc fid val p = .ok (p', msgs) →
      List.lookup i p'.proposal_history = some v0) ∧
    (∀ p' msgs, handle_prepare_response rc m p = .ok (p', msgs) →
      p'.proposal_history = p.proposal_history) ∧
    (∀ p' msgs, send_accept_request rc p = .ok (p', msgs) →
      p'.proposal_history = p.proposal_history) ∧
    ((handle_accept_response rc a p).1.proposal_history =
      p.proposal_history) ∧
    (List.lookup fid p.proposal_history = none →
      ∀ p' msgs, send_prepare_request rc fid val p = .ok (p', msgs) →
        List.lookup fid p'.proposal_history = some val) := by
  refine ⟨?_, ?_, ?_, ?_, ?_⟩
  · intro p' msgs h
    rw [send_prepare_request_ok_state h]
    exact lookup_entryOrInsert_of_mem fid val i v0 p.proposal_history hi
  · intro p' msgs h
    obtain ⟨p1, hp1, hp', -, -⟩ := handle_prepare_response_ok_spec h
    rcases hp1 with rfl | ⟨v, -, rfl⟩ <;> rw [hp']
  · intro p' msgs h
    rw [(send_accept_request_ok_spec h).1]
  · rw [handle_accept_response_eq]
  · intro habs p' msgs h
    rw [send_prepare_request_ok_state h]
    exact lookup_entryOrInsert_self fid val p.proposal_history habs

/-- Claim C8, witness: history `[(4, 5)]`; a prepare with fresh id 9 and
value 7, a prepare response and an accept response from node 2 carrying
id 6, delivered with three acceptors subscribed. -/
theorem c8_history_append_only_witness :
    (∀ p' msgs, send_prepare_request 3 9 7 ⟨1, none, [(4, 5)], ∅, ∅⟩ =
        .ok (p', msgs) → List.lookup 4 p'.proposal_history = some 5) ∧
    (∀ p' msgs, handle_prepare_response 3 ⟨2, 6⟩ ⟨1, none, [(4, 5)], ∅, ∅⟩ =
        .ok (p', msgs) → p'.proposal_history = [(4, 5)]) ∧
    (∀ p' msgs, send_accept_request 3 ⟨1, none, [(4, 5)], ∅, ∅⟩ =
        .ok (p', msgs) → p'.proposal_history = [(4, 5)]) ∧
    ((handle_accept_response 3 ⟨2, 6, 7⟩
        ⟨1, none, [(4, 5)], ∅, ∅⟩).1.proposal_history = [(4, 5)]) ∧
    (List.lookup 9 ([(4, 5)] : List (ProposalId × Nat)) = none →
      ∀ p' msgs, send_prepare_request 3 9 7 ⟨1, none, [(4, 5)], ∅, ∅⟩ =
        .ok (p', msgs) → List.lookup 9 p'.proposal_history = some 7) :=
  c8_history_append_only 3 4 5 9 7 ⟨2, 6⟩ ⟨2, 6, 7⟩
    ⟨1, none, [(4, 5)], ∅, ∅⟩ (by decide)

/-! ## Claim C2 -/

/-- Claim C2: quorum is declared iff the tracking set's size strictly
exceeds half the acceptor count (integer division) at the moment of the
check — in the prepare phase an `AcceptRequest` is broadcast iff
`prepared_nodes` strictly exceeds half, in the accept phase the consensus
signal fires iff `accepted_value_nodes` strictly exceeds half — and a set
size exactly equal to half the acceptor count never triggers quorum. -/
theorem c2_quorum_strict_majority (rc : Nat) (m : PreparePhaseBody)
    (a : AcceptPhaseBody) (p : Proposer) :
    (∀ p' msgs, handle_prepare_response rc m p = .ok (p', msgs) →
      ((∃ b, Message.AcceptRequest b ∈ msgs) ↔
        p'.prepared_nodes.card > rc / 2)) ∧
    ((handle_accept_response rc a p).2.isSome ↔
      (insert a.issuer_id p.accepted_value_nodes).card > rc / 2) ∧
    (2 * (insert m.issuer_id p.prepared_nodes).card = rc →
      ∀ p' msgs, handle_prepare_response rc m p = .ok (p', msgs) →
        msgs = []) ∧
    (2 * (insert a.issuer_id p.accepted_value_nodes).card = rc →
      (handle_accept_response rc a p).2 = none) := by
  refine ⟨?_, ?_, ?_, ?_⟩
  · intro p' msgs h
    obtain ⟨p1, -, -, hq, hnq⟩ := handle_prepare_response_ok_spec h
    constructor
    · rintro ⟨b, hb⟩
      by_contra hn
      rw [hnq hn] at hb
      exact absurd hb (List.not_mem_nil _)
    · intro hquorum
      obtain ⟨b, hb⟩ := hq hquorum
      exact ⟨b, by rw [hb]; exact List.mem_singleton_self _⟩
  · rw [handle_accept_response_eq]
    by_cases hq : (insert a.issuer_id p.accepted_value_nodes).card > rc / 2 <;>
      simp [hq]
  · intro hhalf p' msgs h
    obtain ⟨p1, hp1, hp', -, hnq⟩ := handle_prepare_response_ok_spec h
    apply hnq
    have hprep : p1.prepared_nodes = p.prepared_nodes := by
      rcases hp1 with rfl | ⟨v, -, rfl⟩ <;> rfl
    rw [hp']
    show ¬ (insert m.issuer_id p1.prepared_nodes).card > rc / 2
    rw [hprep]
    omega
  · intro hhalf
    rw [handle_accept_response_eq]
    have hn : ¬ (insert a.issuer_id p.accepted_value_nodes).card > rc / 2 := by
      omega
    simp [hn]

/-- With a latest proposal whose id is bound in the history to its value,
and at least one subscribed acceptor, `send_accept_request` succeeds and
broadcasts that (id, value) pair. -/
theorem send_accept_request_ok_of_consistent {rc : Nat} {p : Proposer}
    {pr : Proposal}
    (hrc : 0 < rc) (hl : p.latest_proposal = some pr)
    (hc : List.lookup pr.id p.proposal_history = some pr.value) :
    send_accept_request rc p =
      .ok (p, [Message.AcceptRequest ⟨p.id, pr.id, pr.value⟩]) := by
  simp [send_accept_request, hl, hc, hrc.ne']

/-- One `PrepareResponse` step, when the current latest proposal is
consistent with the history and the received id is recorded there: the
handler succeeds and the new latest proposal carries the greater of the two
ids, with the value the history binds to it. -/
theorem handle_prepare_response_step {rc : Nat} {r : PreparePhaseBody}
    {p : Proposer} {pr : Proposal}
    (hrc : 0 < rc)
    (hl : p.latest_proposal = some pr)
    (hc : List.lookup pr.id p.proposal_history = some pr.value)
    (hr : (List.lookup r.proposal_id p.proposal_history).isSome = true) :
    ∃ p' msgs pr', handle_prepare_response rc r p = .ok (p', msgs) ∧
      p'.latest_proposal = some pr' ∧
      pr'.id = max pr.id r.proposal_id ∧
      List.lookup pr'.id p.proposal_history = some pr'.value ∧
      p'.proposal_history = p.proposal_history := by
  by_cases hgt : r.proposal_id > pr.id
  · obtain ⟨v, hv⟩ := Option.isSome_iff_exists.mp hr
    have hsend := @send_accept_request_ok_of_consistent rc
      { p with latest_proposal := some ⟨r.proposal_id, v⟩
               prepared_nodes := insert r.issuer_id p.prepared_nodes }
      ⟨r.proposal_id, v⟩ hrc rfl hv
    by_cases hq : (insert r.issuer_id p.prepared_nodes).card > rc / 2
    · refine ⟨{ p with latest_proposal := some ⟨r.proposal_id, v⟩
                       prepared_nodes := insert r.issuer_id p.prepared_nodes },
        [Message.AcceptRequest ⟨p.id, r.proposal_id, v⟩], ⟨r.proposal_id, v⟩,
        ?_, rfl, (max_eq_right (le_of_lt hgt)).symm, hv, rfl⟩
      simp [handle_prepare_response, hl, hgt, hv, hq, hsend]
    · refine ⟨{ p with latest_proposal := some ⟨r.proposal_id, v⟩
                       prepared_nodes := insert r.issuer_id p.prepared_nodes },
        [], ⟨r.proposal_id, v⟩,
        ?_, rfl, (max_eq_right (le_of_lt hgt)).symm, hv, rfl⟩
      simp [handle_prepare_response, hl, hgt, hv, hq]
  · have hmax : max pr.id r.proposal_id = pr.id :=
      max_eq_left (le_of_not_lt hgt)
    have hsend := @send_accept_request_ok_of_consistent rc
      { p with prepared_nodes := insert r.issuer_id p.prepared_nodes }
      pr hrc hl hc
    rw [hl] at hsend
    by_cases hq : (insert r.issuer_id p.prepared_nodes).card > rc / 2
    · refine ⟨{ p with prepared_nodes := insert r.issuer_id p.prepared_nodes },
        [Message.AcceptRequest ⟨p.id, pr.id, pr.value⟩], pr,
        ?_, hl, hmax.symm, hc, rfl⟩
      simp [handle_prepare_response, hl, hgt, hq, hsend]
    · refine ⟨{ p with prepared_nodes := insert r.issuer_id p.prepared_nodes },
        [], pr, ?_, hl, hmax.symm, hc, rfl⟩
      simp [handle_prepare_response, hl, hgt, hq]

/-! ## Claim C1 -/

/-- Claim C1: across any sequence of `PrepareResponse`s, provided every
surfaced id was previously recorded in the history (and the current latest
proposal is itself consistent with the history, with at least one acceptor
subscribed), the proposer's `latest_proposal` afterwards carries the
numerically greatest id observed so far, bound to the value the history
associates with that id — never an older one. -/
theorem c1_latest_tracks_greatest (rc : Nat) (rs : List PreparePhaseBody)
    (p : Proposer) (pr : Proposal)
    (hrc : 0 < rc)
    (hl : p.latest_proposal = some pr)
    (hc : List.lookup pr.id p.proposal_history = some pr.value)
    (hall : ∀ r ∈ rs,
      (List.lookup r.proposal_id p.proposal_history).isSome = true) :
    ∃ p' msgs pr', runPrepareResponses rc rs p = .ok (p', msgs) ∧
      p'.latest_proposal = some pr' ∧
      pr'.id = maxObserved pr.id rs ∧
      List.lookup pr'.id p.proposal_history = some pr'.value := by
  induction rs generalizing p pr with
  | nil => exact ⟨p, [], pr, rfl, hl, rfl, hc⟩
  | cons r rest ih =>
    obtain ⟨p1, msgs1, pr1, hstep, hl1, hid1, hc1, hhist1⟩ :=
      handle_prepare_response_step hrc hl hc (hall r (List.mem_cons_self r rest))
    have hc1' : List.lookup pr1.id p1.proposal_history = some pr1.value := by
      rw [hhist1]; exact hc1
    have hall' : ∀ r' ∈ rest,
        (List.lookup r'.proposal_id p1.proposal_history).isSome = true := by
      intro r' hr'
      rw [hhist1]
      exact hall r' (List.mem_cons_of_mem r hr')
    obtain ⟨p2, msgs2, pr2, hrun, hl2, hid2, hc2⟩ := ih p1 pr1 hl1 hc1' hall'
    refine ⟨p2, msgs1 ++ msgs2, pr2, ?_, hl2, ?_, ?_⟩
    · simp [runPrepareResponses, hstep, hrun]
    · rw [hid2, hid1]; rfl
    · rw [← hhist1]; exact hc2

/-- Claim C1, witness: latest proposal (4, 5); one response surfaces the
greater recorded id 10, and the proposer ends up on (10, 9). -/
theorem c1_latest_tracks_greatest_witness :
    ∃ p' msgs pr',
      runPrepareResponses 3 [⟨2, 10⟩]
        ⟨1, some ⟨4, 5⟩, [(4, 5), (10, 9)], ∅, ∅⟩ = .ok (p', msgs) ∧
      p'.latest_proposal = some pr' ∧
      pr'.id = maxObserved 4 [⟨2, 10⟩] ∧
      List.lookup pr'.id [(4, 5), (10, 9)] = some pr'.value :=
  c1_latest_tracks_greatest 3 [⟨2, 10⟩]
    ⟨1, some ⟨4, 5⟩, [(4, 5), (10, 9)], ∅, ∅⟩ ⟨4, 5⟩
    (by decide) rfl (by decide)
    (by intro r hr; rw [List.mem_singleton] at hr; subst hr; decide)

/-- A `PrepareResponse` echoing the proposer's own ballot id, with three
acceptors subscribed: no adoption happens, the issuer is recorded, and the
`AcceptRequest` for the (id, value) pair goes out exactly when the recorded
set strictly exceeds half of three. -/
theorem step_same_id (v i nid : Nat) (S : Finset Nat)
    (H : List (ProposalId × Nat)) (hv : List.lookup i H = some v) :
    handle_prepare_response 3 ⟨nid, i⟩ ⟨1, some ⟨i, v⟩, H, S, ∅⟩ =
      if (insert nid S).card > 1
        then .ok (⟨1, some ⟨i, v⟩, H, insert nid S, ∅⟩,
                  [Message.AcceptRequest ⟨1, i, v⟩])
        else .ok (⟨1, some ⟨i, v⟩, H, insert nid S, ∅⟩, []) := by
  simp [handle_prepare_response, send_accept_request, lt_irrefl, hv]

/-! ## Claim C4 -/

/-- Claim C4, counterexample: acceptor count 3, a prepare for value 42 under
ballot id 5, then three `PrepareResponse`s from distinct acceptors 1, 2, 3.
The claim says the `AcceptRequest` is broadcast exactly once even across
further responses; the code broadcasts it twice — once at the second
response and again at the third. -/
theorem c4_counterexample :
    (match send_prepare_request 3 5 42 Proposer.new with
     | .ok (p1, _) =>
       match runPrepareResponses 3 [⟨1, 5⟩, ⟨2, 5⟩, ⟨3, 5⟩] p1 with
       | .ok (_, msgs) => countAcceptRequests msgs
       | _ => 0
     | _ => 0) = 2 := by decide

/-- Claim C4 (amended): with acceptor count 3, after exactly 2
`PrepareResponse`s from distinct acceptor ids an `AcceptRequest` has been
broadcast exactly once, carrying the value bound in the history to the
current latest proposal's id; each further `PrepareResponse` broadcasts an
additional `AcceptRequest`. -/
theorem c4_accept_broadcast_after_two (v i a b : Nat) (hab : a ≠ b) :
    ∃ p1 msgs1 p2,
      send_prepare_request 3 i v Proposer.new = .ok (p1, msgs1) ∧
      runPrepareResponses 3 [⟨a, i⟩, ⟨b, i⟩] p1 =
        .ok (p2, [Message.AcceptRequest ⟨1, i, v⟩]) ∧
      p2.latest_proposal = some ⟨i, v⟩ ∧
      List.lookup i p2.proposal_history = some v := by
  have hlook : List.lookup i [(i, v)] = some v := by simp [List.lookup]
  have h1 := (step_same_id v i a ∅ [(i, v)] hlook).trans (if_neg (by simp))
  have hba : b ∉ ({a} : Finset Nat) := by simp [Ne.symm hab]
  have h2 := (step_same_id v i b {a} [(i, v)] hlook).trans
    (if_pos (by simp [Finset.card_insert_of_not_mem hba]))
  refine ⟨⟨1, some ⟨i, v⟩, [(i, v)], ∅, ∅⟩, [Message.PrepareRequest ⟨1, i⟩],
    ⟨1, some ⟨i, v⟩, [(i, v)], insert b {a}, ∅⟩, ?_, ?_, rfl, hlook⟩
  · simp [send_prepare_request, entryOrInsert, Proposer.new]
  · simp [runPrepareResponses, h1, h2]

/-- Claim C4, witness: value 42, ballot id 7, acceptors 1 and 2. -/
theorem c4_accept_broadcast_after_two_witness :
    ∃ p1 msgs1 p2,
      send_prepare_request 3 7 42 Proposer.new = .ok (p1, msgs1) ∧
      runPrepareResponses 3 [⟨1, 7⟩, ⟨2, 7⟩] p1 =
        .ok (p2, [Message.AcceptRequest ⟨1, 7, 42⟩]) ∧
      p2.latest_proposal = some ⟨7, 42⟩ ∧
      List.lookup 7 p2.proposal_history = some 42 :=
  c4_accept_broadcast_after_two 42 7 1 2 (by decide)

/-! ## Claim C5 -/

/-- Claim C5: round-trip. From the initial proposer state with three
acceptors, submitting one client value and then delivering three
`PrepareResponse`s carrying the generated ballot id and three
`AcceptResponse`s for that ballot from three distinct acceptors yields a
declared-consensus signal carrying exactly the original client value. -/
theorem c5_round_trip (v i a b c : Nat) (hab : a ≠ b) (hac : a ≠ c)
    (hbc : b ≠ c) :
    ∃ p1 msgs1 p2 msgs2 p3 signals,
      send_prepare_request 3 i v Proposer.new = .ok (p1, msgs1) ∧
      runPrepareResponses 3 [⟨a, i⟩, ⟨b, i⟩, ⟨c, i⟩] p1 = .ok (p2, msgs2) ∧
      runAcceptResponses 3 [⟨a, i, v⟩, ⟨b, i, v⟩, ⟨c, i, v⟩] p2 =
        (p3, signals) ∧
      some v ∈ signals := by
  have hlook : List.lookup i [(i, v)] = some v := by simp [List.lookup]
  have hba : b ∉ ({a} : Finset Nat) := by simp [Ne.symm hab]
  have hcba : c ∉ insert b ({a} : Finset Nat) := by
    simp [Ne.symm hbc, Ne.symm hac]
  have h1 := (step_same_id v i a ∅ [(i, v)] hlook).trans (if_neg (by simp))
  have h2 := (step_same_id v i b {a} [(i, v)] hlook).trans
    (if_pos (by simp [Finset.card_insert_of_not_mem hba]))
  have h3 := (step_same_id v i c (insert b {a}) [(i, v)] hlook).trans
    (if_pos (by simp [Finset.card_insert_of_not_mem hcba,
      Finset.card_insert_of_not_mem hba]))
  have haccept : runAcceptResponses 3 [⟨a, i, v⟩, ⟨b, i, v⟩, ⟨c, i, v⟩]
      ⟨1, some ⟨i, v⟩, [(i, v)], insert c (insert b {a}), ∅⟩ =
      (⟨1, some ⟨i, v⟩, [(i, v)], insert c (insert b {a}),
        insert c (insert b (insert a ∅))⟩, [none, some v, some v]) := by
    have k2 : (insert b ({a} : Finset Nat)).card = 2 := by
      rw [Finset.card_insert_of_not_mem hba, Finset.card_singleton]
    have k3 : (insert c (insert b ({a} : Finset Nat))).card = 3 := by
      rw [Finset.card_insert_of_not_mem hcba, k2]
    simp [runAcceptResponses, handle_accept_response_eq, k2, k3]
  refine ⟨⟨1, some ⟨i, v⟩, [(i, v)], ∅, ∅⟩, [Message.PrepareRequest ⟨1, i⟩],
    ⟨1, some ⟨i, v⟩, [(i, v)], insert c (insert b {a}), ∅⟩,
    [Message.AcceptRequest ⟨1, i, v⟩, Message.AcceptRequest ⟨1, i, v⟩],
    ⟨1, some ⟨i, v⟩, [(i, v)], insert c (insert b {a}),
      insert c (insert b (insert a ∅))⟩,
    [none, some v, some v], ?_, ?_, haccept, by simp⟩
  · simp [send_prepare_request, entryOrInsert, Proposer.new]
  · simp [runPrepareResponses, h1, h2, h3]

/-- Claim C5, witness: client value 42 under ballot id 7, acceptors 1, 2
and 3. -/
theorem c5_round_trip_witness :
    ∃ p1 msgs1 p2 msgs2 p3 signals,
      send_prepare_request 3 7 42 Proposer.new = .ok (p1, msgs1) ∧
      runPrepareResponses 3 [⟨1, 7⟩, ⟨2, 7⟩, ⟨3, 7⟩] p1 = .ok (p2, msgs2) ∧
      runAcceptResponses 3 [⟨1, 7, 42⟩, ⟨2, 7, 42⟩, ⟨3, 7, 42⟩] p2 =
        (p3, signals) ∧
      some 42 ∈ signals :=
  c5_round_trip 42 7 1 2 3 (by decide) (by decide) (by decide)
